import Mathlib

/-!
Verification development for the stock-data-pipeline repository.

The indicator engine (`indicators.py`) computes per-symbol rolling statistics:
SMA/DMA, EMA, T-Score, F-Score and extremum flags, and the writer
(`data_processor.py`) persists `IndicatorRow`s into a store keyed by
`(symbol, date)` with upsert (insert-or-update) semantics.

The embedding below models numeric values as rationals (`ℚ`), series as
`List ℚ`, and pandas' NaN-masked series as `List (Option ℚ)` where `none`
stands for a NaN/undefined entry.  Comparisons against an undefined entry
yield `false`, exactly as comparisons with NaN do in pandas.
-/

namespace StockPipeline

/-! ### Configuration (`config.py`) -/

def DMA_PERIODS : List ℕ := [10, 21, 50, 100]

def EMA_PERIODS : List ℕ := [10, 21, 50, 100]

def WEEK_52_DAYS : ℕ := 252

/-! ### Data model -/

/-- One traded day for one symbol (a row of the OHLCV input frame).
`date` is modelled as an ordinal day number. -/
structure Bar where
  symbol : String
  date : ℕ
  open_ : ℚ
  high : ℚ
  low : ℚ
  close : ℚ
  volume : ℚ
deriving Repr, DecidableEq, Inhabited

/-! ### Window operations (the pandas rolling/expanding/ewm/shift/pct_change
calls used by `indicators.py`) -/

/-- The trailing window of width at most `p` ending at index `i`
(`x[i-p+1 .. i]`, truncated at the start of the series). -/
def windowSlice (x : List ℚ) (p i : ℕ) : List ℚ := (x.take (i + 1)).drop (i + 1 - p)

/-- Maximum of a list, `none` on the empty list (like `Series.max`). -/
def listMax : List ℚ → Option ℚ
  | [] => none
  | a :: t => some (t.foldl max a)

/-- Minimum of a list, `none` on the empty list (like `Series.min`). -/
def listMin : List ℚ → Option ℚ
  | [] => none
  | a :: t => some (t.foldl min a)

/-- `x.rolling(window=p, min_periods=p).mean()`: mean of the trailing window
of width `p`, `none` while the window is not yet full. -/
def rollingMean (x : List ℚ) (p : ℕ) : List (Option ℚ) :=
  (List.range x.length).map fun i =>
    if p ≤ i + 1 then some ((windowSlice x p i).sum / (p : ℚ)) else none

/-- `x.rolling(window=p, min_periods=p).max()`. -/
def rollingMax (x : List ℚ) (p : ℕ) : List (Option ℚ) :=
  (List.range x.length).map fun i =>
    if p ≤ i + 1 then listMax (windowSlice x p i) else none

/-- `x.rolling(window=p, min_periods=p).min()`. -/
def rollingMin (x : List ℚ) (p : ℕ) : List (Option ℚ) :=
  (List.range x.length).map fun i =>
    if p ≤ i + 1 then listMin (windowSlice x p i) else none

/-- `x.rolling(window=p, min_periods=1).max()`: defined from the first row,
using whatever shorter window is available. -/
def rollingMaxMinp1 (x : List ℚ) (p : ℕ) : List (Option ℚ) :=
  (List.range x.length).map fun i => listMax (windowSlice x p i)

/-- `x.rolling(window=p, min_periods=1).min()`. -/
def rollingMinMinp1 (x : List ℚ) (p : ℕ) : List (Option ℚ) :=
  (List.range x.length).map fun i => listMin (windowSlice x p i)

/-- `x.expanding(min_periods=1).max()`. -/
def expandingMax (x : List ℚ) : List (Option ℚ) :=
  (List.range x.length).map fun i => listMax (x.take (i + 1))

/-- `x.expanding(min_periods=1).min()`. -/
def expandingMin (x : List ℚ) : List (Option ℚ) :=
  (List.range x.length).map fun i => listMin (x.take (i + 1))

/-- `s.shift(k)` on a possibly NaN-carrying series. -/
def shiftSeries (s : List (Option ℚ)) (k : ℕ) : List (Option ℚ) :=
  (List.range s.length).map fun i => if k ≤ i then s.getD (i - k) none else none

/-- `x.pct_change(k)`: `x[i]/x[i-k] - 1`, undefined for `i < k`. -/
def pctChange (x : List ℚ) (k : ℕ) : List (Option ℚ) :=
  (List.range x.length).map fun i =>
    if k ≤ i then some (x.getD i 0 / x.getD (i - k) 0 - 1) else none

/-- Elementwise `>` between possibly-undefined values; a comparison against
an undefined (NaN) operand is `false`, as in pandas. -/
def oGT : Option ℚ → Option ℚ → Bool
  | some a, some b => decide (b < a)
  | _, _ => false

/-- Underlying recursion of `Series.ewm(adjust=False)`: given the previous
smoothed value `prev`, produce the smoothed values of the remaining inputs. -/
def ewmAux (a : ℚ) (prev : ℚ) : List ℚ → List ℚ
  | [] => []
  | v :: vs => (a * v + (1 - a) * prev) :: ewmAux a (a * v + (1 - a) * prev) vs

/-- The unmasked values of `x.ewm(span=..., adjust=False).mean()`:
`y[0] = x[0]`, `y[i] = a*x[i] + (1-a)*y[i-1]`. -/
def emaRaw (a : ℚ) : List ℚ → List ℚ
  | [] => []
  | x0 :: xs => x0 :: ewmAux a x0 xs

/-! ### Indicator calculations (`indicators.py`, class `TechnicalIndicators`) -/

/-- `calculate_sma`: `data.rolling(window=period, min_periods=period).mean()`. -/
def calculate_sma (data : List ℚ) (period : ℕ) : List (Option ℚ) :=
  rollingMean data period

/-- `calculate_ema`: `data.ewm(span=period, adjust=False, min_periods=period).mean()`.
The smoothing constant is `α = 2/(span+1)`; `min_periods` masks outputs at
positions with fewer than `period` observations, but the recursion itself
starts at index 0 with `y[0] = x[0]`. -/
def calculate_ema (data : List ℚ) (period : ℕ) : List (Option ℚ) :=
  (List.range data.length).map fun i =>
    if period ≤ i + 1 then some ((emaRaw (2 / (period + 1 : ℚ)) data).getD i 0) else none

/-- The `1e-10` guard term of `calculate_t_score`. -/
def tEps : ℚ := 1 / 10000000000

/-- `calculate_t_score`: `(close - low_n) / (high_n - low_n + 1e-10) * 100`
with `high_n`/`low_n` the 14-day rolling max of `high` / min of `low`
(`min_periods = 14`); NaN (here `none`) propagates through the arithmetic. -/
def calculate_t_score (df : List Bar) : List (Option ℚ) :=
  let high_n := rollingMax (df.map (·.high)) 14
  let low_n := rollingMin (df.map (·.low)) 14
  (List.range df.length).map fun i =>
    match high_n.getD i none, low_n.getD i none with
    | some h, some l => some (((df.map (·.close)).getD i 0 - l) / (h - l + tEps) * 100)
    | _, _ => none

/-- `calculate_f_score`: sum of nine boolean conditions, each contributing
0 or 1; a condition whose operand is undefined (NaN) contributes 0. -/
def calculate_f_score (close volume : List ℚ) : List ℕ :=
  let cl := close.map some
  let vol := volume.map some
  let ma_50 := rollingMean close 50
  let price_20d_ago := shiftSeries cl 20
  let ma_50_20d_ago := shiftSeries ma_50 20
  let avg_volume := rollingMean volume 50
  let ma_10 := rollingMean close 10
  let ma_20 := rollingMean close 20
  let ma_200 := rollingMean close 200
  let returns_5d := pctChange close 5
  let returns_20d := pctChange close 20
  (List.range close.length).map fun i =>
    (oGT (cl.getD i none) (ma_50.getD i none)).toNat
    + (oGT (cl.getD i none) (price_20d_ago.getD i none)).toNat
    + (oGT (ma_50.getD i none) (ma_50_20d_ago.getD i none)).toNat
    + (oGT (vol.getD i none) (avg_volume.getD i none)).toNat
    + (oGT (ma_10.getD i none) (ma_20.getD i none)).toNat
    + (oGT (ma_20.getD i none) (ma_50.getD i none)).toNat
    + (oGT (cl.getD i none) (ma_200.getD i none)).toNat
    + (oGT (returns_5d.getD i none) (some 0)).toNat
    + (oGT (returns_20d.getD i none) (some 0)).toNat

/-- `calculate_52_week_high`: `high >= high.rolling(252, min_periods=1).max()`. -/
def calculate_52_week_high (highs : List ℚ) : List Bool :=
  (List.range highs.length).map fun i =>
    match listMax (windowSlice highs WEEK_52_DAYS i) with
    | some m => decide (m ≤ highs.getD i 0)
    | none => false

/-- `calculate_52_week_low`: `low <= low.rolling(252, min_periods=1).min()`. -/
def calculate_52_week_low (lows : List ℚ) : List Bool :=
  (List.range lows.length).map fun i =>
    match listMin (windowSlice lows WEEK_52_DAYS i) with
    | some m => decide (lows.getD i 0 ≤ m)
    | none => false

/-- `calculate_all_time_high`: `high >= high.expanding(min_periods=1).max()`. -/
def calculate_all_time_high (highs : List ℚ) : List Bool :=
  (List.range highs.length).map fun i =>
    match listMax (highs.take (i + 1)) with
    | some m => decide (m ≤ highs.getD i 0)
    | none => false

/-- `calculate_all_time_low`: `low <= low.expanding(min_periods=1).min()`. -/
def calculate_all_time_low (lows : List ℚ) : List Bool :=
  (List.range lows.length).map fun i =>
    match listMin (lows.take (i + 1)) with
    | some m => decide (lows.getD i 0 ≤ m)
    | none => false

/-! ### Sorting and symbol grouping -/

/-- Insert a bar into a date-sorted list (model of a sort by the `date` column). -/
def insertByDate (b : Bar) : List Bar → List Bar
  | [] => [b]
  | a :: t => if b.date ≤ a.date then b :: a :: t else a :: insertByDate b t

/-- `df.sort_values('date')`: sort the rows ascending by date. -/
def sortByDate : List Bar → List Bar
  | [] => []
  | a :: t => insertByDate a (sortByDate t)

/-- Boolean check that a list of bars is ascending by date. -/
def isSortedByDate : List Bar → Bool
  | [] => true
  | [_] => true
  | a :: b :: t => decide (a.date ≤ b.date) && isSortedByDate (b :: t)

/-- `df['symbol'].unique()`: the distinct values in first-seen order. -/
def firstSeen : List String → List String
  | [] => []
  | s :: t => s :: (firstSeen t).filter (fun x => x ≠ s)

/-- A `Bar` augmented with all computed indicator columns
(one row of the processed frame). -/
structure IndicatorRow where
  bar : Bar
  t_score : Option ℚ
  f_score : ℕ
  dma_10 : Option ℚ
  dma_21 : Option ℚ
  dma_50 : Option ℚ
  dma_100 : Option ℚ
  ema_10 : Option ℚ
  ema_21 : Option ℚ
  ema_50 : Option ℚ
  ema_100 : Option ℚ
  is_52_week_high : Bool
  is_52_week_low : Bool
  is_all_time_high : Bool
  is_all_time_low : Bool
deriving Repr, DecidableEq, Inhabited

/-- `add_all_indicators` (single-symbol path): sort the rows by date and
attach every indicator column, each computed from the sorted series. -/
def add_all_indicators (df : List Bar) : List IndicatorRow :=
  let s := sortByDate df
  let closes := s.map (·.close)
  let vols := s.map (·.volume)
  let highs := s.map (·.high)
  let lows := s.map (·.low)
  let t := calculate_t_score s
  let f := calculate_f_score closes vols
  let d10 := calculate_sma closes 10
  let d21 := calculate_sma closes 21
  let d50 := calculate_sma closes 50
  let d100 := calculate_sma closes 100
  let e10 := calculate_ema closes 10
  let e21 := calculate_ema closes 21
  let e50 := calculate_ema closes 50
  let e100 := calculate_ema closes 100
  let w52h := calculate_52_week_high highs
  let w52l := calculate_52_week_low lows
  let ath := calculate_all_time_high highs
  let atl := calculate_all_time_low lows
  (List.range s.length).map fun i =>
    { bar := s.getD i default
      t_score := t.getD i none
      f_score := f.getD i 0
      dma_10 := d10.getD i none
      dma_21 := d21.getD i none
      dma_50 := d50.getD i none
      dma_100 := d100.getD i none
      ema_10 := e10.getD i none
      ema_21 := e21.getD i none
      ema_50 := e50.getD i none
      ema_100 := e100.getD i none
      is_52_week_high := w52h.getD i false
      is_52_week_low := w52l.getD i false
      is_all_time_high := ath.getD i false
      is_all_time_low := atl.getD i false }

/-- `process_multiple_symbols`: partition the rows by symbol in first-seen
order, sort each partition by date, run the engine on each partition
independently, and concatenate the results. -/
def process_multiple_symbols (df : List Bar) : List IndicatorRow :=
  ((firstSeen (df.map (·.symbol))).map fun symbol =>
    add_all_indicators (sortByDate (df.filter (fun b => b.symbol = symbol)))).flatten

/-! ### Store and writer (`database.py`, `data_processor.py`) -/

/-- The value columns of a `stock_data` record: every column of the schema
except the `(symbol, date)` key (these are exactly the columns listed in
`_store_data`'s conflict-update dictionary). -/
structure StoredVals where
  open_ : ℚ
  high : ℚ
  low : ℚ
  close : ℚ
  volume : ℚ
  t_score : Option ℚ
  f_score : ℕ
  dma_10 : Option ℚ
  dma_21 : Option ℚ
  dma_50 : Option ℚ
  dma_100 : Option ℚ
  ema_10 : Option ℚ
  ema_21 : Option ℚ
  ema_50 : Option ℚ
  ema_100 : Option ℚ
  is_52_week_high : Bool
  is_52_week_low : Bool
  is_all_time_high : Bool
  is_all_time_low : Bool
deriving Repr, DecidableEq

/-- The `(symbol, date)` conflict key of a row. -/
def rowKey (r : IndicatorRow) : String × ℕ := (r.bar.symbol, r.bar.date)

/-- The value columns a row submits for its key. -/
def rowVals (r : IndicatorRow) : StoredVals :=
  { open_ := r.bar.open_
    high := r.bar.high
    low := r.bar.low
    close := r.bar.close
    volume := r.bar.volume
    t_score := r.t_score
    f_score := r.f_score
    dma_10 := r.dma_10
    dma_21 := r.dma_21
    dma_50 := r.dma_50
    dma_100 := r.dma_100
    ema_10 := r.ema_10
    ema_21 := r.ema_21
    ema_50 := r.ema_50
    ema_100 := r.ema_100
    is_52_week_high := r.is_52_week_high
    is_52_week_low := r.is_52_week_low
    is_all_time_high := r.is_all_time_high
    is_all_time_low := r.is_all_time_low }

/-- Observable state of the relational store: the record (if any) held under
each `(symbol, date)` key (the table is unique on that key). -/
def Store : Type := String × ℕ → Option StoredVals

/-- `INSERT ... ON CONFLICT (symbol, date) DO UPDATE SET <all value columns>`
for one row: the key now maps to exactly the submitted value columns,
whether or not it existed before. -/
def upsertRow (s : Store) (r : IndicatorRow) : Store :=
  fun k => if k = rowKey r then some (rowVals r) else s k

/-- Apply the upsert for a sequence of rows in order. -/
def upsertAll (s : Store) (rows : List IndicatorRow) : Store :=
  rows.foldl upsertRow s

/-- Split a record list into batches of `n` (the `range(0, len, batch_size)`
slicing of `_store_data`; `n = 1000` there). -/
def chunksOf (n : ℕ) : List IndicatorRow → List (List IndicatorRow)
  | [] => []
  | x :: xs => ((x :: xs).take n) :: chunksOf n (xs.drop (n - 1))
termination_by l => l.length
decreasing_by
  simp only [List.length_cons, List.length_drop]
  omega

/-- Execute the batches one by one against the session state, starting at
batch index `i`; `failAt` says whether the store raises on a given batch
(`session.execute` failing).  An error aborts with no commit. -/
def execBatches (failAt : ℕ → Bool) : ℕ → Store → List (List IndicatorRow) → Except Unit Store
  | _, sess, [] => .ok sess
  | i, sess, b :: bs =>
      if failAt i then .error () else execBatches failAt (i + 1) (upsertAll sess b) bs

/-- `_store_data`: batch the rows, execute every batch in one session and
commit at the end; on any storage error the session is rolled back
(so the durable store is unchanged) and the exception is re-raised
(`Except.error`). -/
def store_data (failAt : ℕ → Bool) (db : Store) (rows : List IndicatorRow) : Except Unit Store :=
  execBatches failAt 0 db (chunksOf 1000 rows)

/-- The durable store visible after `_store_data`: the committed session on
success, the original store after a rollback. -/
def storeAfter (failAt : ℕ → Bool) (db : Store) (rows : List IndicatorRow) : Store :=
  match store_data failAt db rows with
  | .ok s' => s'
  | .error _ => db

/-- The storage stage of `process_and_store_stocks`: the top-level
`try`/`except` catches the storage exception raised out of `_store_data`,
aborts the run and reports failure (`False`); on success it reports `True`.
Returns the reported flag together with the durable store. -/
def process_and_store (failAt : ℕ → Bool) (db : Store) (rows : List IndicatorRow) :
    Bool × Store :=
  match store_data failAt db rows with
  | .ok s' => (true, s')
  | .error _ => (false, db)

/-! ### Basic lemmas about the window operations -/

theorem le_foldl_max (l : List ℚ) (b : ℚ) : b ≤ l.foldl max b := by
  induction l generalizing b with
  | nil => simp
  | cons a t ih => exact le_trans (le_max_left b a) (ih (max b a))

theorem foldl_max_le_of_mem (l : List ℚ) (b a : ℚ) : a ∈ l → a ≤ l.foldl max b := by
  induction l generalizing b with
  | nil => intro ha; simp at ha
  | cons c t ih =>
    intro ha
    rcases List.mem_cons.mp ha with h | h
    · subst h; exact le_trans (le_max_right b a) (le_foldl_max t (max b a))
    · exact ih (max b c) h

theorem foldl_min_le (l : List ℚ) (b : ℚ) : l.foldl min b ≤ b := by
  induction l generalizing b with
  | nil => simp
  | cons a t ih => exact le_trans (ih (min b a)) (min_le_left b a)

theorem foldl_min_le_of_mem (l : List ℚ) (b a : ℚ) : a ∈ l → l.foldl min b ≤ a := by
  induction l generalizing b with
  | nil => intro ha; simp at ha
  | cons c t ih =>
    intro ha
    rcases List.mem_cons.mp ha with h | h
    · subst h; exact le_trans (foldl_min_le t (min b a)) (min_le_right b a)
    · exact ih (min b c) h

theorem le_of_listMax (l : List ℚ) (m a : ℚ) (hm : listMax l = some m) (ha : a ∈ l) :
    a ≤ m := by
  cases l with
  | nil => simp at ha
  | cons c t =>
    simp only [listMax, Option.some.injEq] at hm
    subst hm
    rcases List.mem_cons.mp ha with h | h
    · subst h; exact le_foldl_max t a
    · exact foldl_max_le_of_mem t c a h

theorem listMin_le (l : List ℚ) (m a : ℚ) (hm : listMin l = some m) (ha : a ∈ l) :
    m ≤ a := by
  cases l with
  | nil => simp at ha
  | cons c t =>
    simp only [listMin, Option.some.injEq] at hm
    subst hm
    rcases List.mem_cons.mp ha with h | h
    · subst h; exact foldl_min_le t a
    · exact foldl_min_le_of_mem t c a h

theorem listMax_of_ne_nil (l : List ℚ) (h : l ≠ []) : ∃ m, listMax l = some m := by
  cases l with
  | nil => exact absurd rfl h
  | cons c t => exact ⟨t.foldl max c, rfl⟩

theorem listMin_of_ne_nil (l : List ℚ) (h : l ≠ []) : ∃ m, listMin l = some m := by
  cases l with
  | nil => exact absurd rfl h
  | cons c t => exact ⟨t.foldl min c, rfl⟩

theorem length_windowSlice (x : List ℚ) (p i : ℕ) (hn : i < x.length) :
    (windowSlice x p i).length = (i + 1) - (i + 1 - p) := by
  simp only [windowSlice, List.length_drop, List.length_take]
  omega

theorem windowSlice_getD (x : List ℚ) (p i j : ℕ) (hn : i < x.length)
    (hj : j < (windowSlice x p i).length) :
    (windowSlice x p i).getD j 0 = x.getD (i + 1 - p + j) 0 := by
  have hlen := length_windowSlice x p i hn
  have hj' : i + 1 - p + j < x.length := by omega
  have hjt : i + 1 - p + j < (x.take (i + 1)).length := by
    simp only [List.length_take]; omega
  rw [List.getD_eq_getElem _ _ hj, List.getD_eq_getElem _ _ hj']
  show (List.drop (i + 1 - p) (x.take (i + 1)))[j] = _
  rw [List.getElem_drop, List.getElem_take]

theorem getD_mem_windowSlice (x : List ℚ) (p i : ℕ) (hp : 1 ≤ p) (hn : i < x.length) :
    x.getD i 0 ∈ windowSlice x p i := by
  have hlen := length_windowSlice x p i hn
  have hj : i - (i + 1 - p) < (windowSlice x p i).length := by omega
  have := windowSlice_getD x p i (i - (i + 1 - p)) hn hj
  have hidx : i + 1 - p + (i - (i + 1 - p)) = i := by omega
  rw [hidx] at this
  rw [← this, List.getD_eq_getElem _ _ hj]
  exact List.getElem_mem hj

theorem windowSlice_ne_nil (x : List ℚ) (p i : ℕ) (hp : 1 ≤ p) (hn : i < x.length) :
    windowSlice x p i ≠ [] := by
  have hlen := length_windowSlice x p i hn
  intro h
  rw [h] at hlen
  simp at hlen
  omega

theorem windowSlice_eq_rangeMap (x : List ℚ) (p i : ℕ) (hp : p ≤ i + 1) (hn : i < x.length) :
    windowSlice x p i = (List.range p).map (fun j => x.getD (i + 1 - p + j) 0) := by
  apply List.ext_getElem
  · rw [length_windowSlice x p i hn]; simp; omega
  · intro j h1 h2
    simp only [List.getElem_map, List.getElem_range]
    rw [← List.getD_eq_getElem (windowSlice x p i) 0 h1]
    exact windowSlice_getD x p i j hn h1

theorem rangeMap_getD {α : Type} [Inhabited α] (l : List α) (d : α) :
    (List.range l.length).map (fun i => l.getD i d) = l := by
  apply List.ext_getElem (by simp)
  intro i h1 h2
  simp only [List.getElem_map, List.getElem_range]
  exact List.getD_eq_getElem l d h2

/-! ### Claim C2: SMA warm-up and trailing-window mean -/

/-- C2: for every series `x` and period `p` in the configured DMA set,
`sma(x,p)[i]` is undefined for `i < p-1`, and for `i ≥ p-1` it equals the
arithmetic mean of the trailing window `x[i-p+1 .. i]`. -/
theorem sma_warmup_and_window (x : List ℚ) (p : ℕ) (hp : p ∈ DMA_PERIODS) (i : ℕ)
    (hn : i < x.length) :
    (i < p - 1 → (calculate_sma x p)[i]? = some none) ∧
    (p - 1 ≤ i → (calculate_sma x p)[i]? =
      some (some (((List.range p).map (fun j => x.getD (i + 1 - p + j) 0)).sum / (p : ℚ)))) := by
  have hp1 : 1 ≤ p := by fin_cases hp <;> norm_num
  constructor
  · intro h
    have hc : ¬ p ≤ i + 1 := by omega
    simp only [calculate_sma, rollingMean, List.getElem?_map, List.getElem?_range, hn,
      Option.map_some']
    rw [if_neg hc]
  · intro h
    have hc : p ≤ i + 1 := by omega
    simp only [calculate_sma, rollingMean, List.getElem?_map, List.getElem?_range, hn,
      Option.map_some']
    rw [if_pos hc, windowSlice_eq_rangeMap x p i hc hn]

/-- Concrete input for the C2 witness. -/
def wSeries : List ℚ := [3, 1, 4, 1, 5, 9, 2, 6, 5, 3]

/-- Witness for C2 at `x = wSeries`, `p = 10`, `i = 9`. -/
theorem sma_warmup_and_window_witness :
    (10 ∈ DMA_PERIODS ∧ 9 < wSeries.length) ∧
    ((9 < 10 - 1 → (calculate_sma wSeries 10)[9]? = some none) ∧
     (10 - 1 ≤ 9 → (calculate_sma wSeries 10)[9]? =
       some (some (((List.range 10).map (fun j => wSeries.getD (9 + 1 - 10 + j) 0)).sum
         / (10 : ℚ))))) :=
  ⟨⟨by decide, by decide⟩, sma_warmup_and_window wSeries 10 (by decide) 9 (by decide)⟩

/-! ### Claim C1: EMA warm-up, seed and recursion -/

theorem length_ewmAux (a : ℚ) (l : List ℚ) (prev : ℚ) :
    (ewmAux a prev l).length = l.length := by
  induction l generalizing prev with
  | nil => rfl
  | cons v vs ih => simp [ewmAux, ih]

theorem ewmAux_getD_succ (a : ℚ) (l : List ℚ) (prev : ℚ) (k : ℕ) :
    k + 1 < l.length →
    (ewmAux a prev l).getD (k + 1) 0 =
      a * l.getD (k + 1) 0 + (1 - a) * (ewmAux a prev l).getD k 0 := by
  induction l generalizing prev k with
  | nil => intro hk; simp at hk
  | cons v vs ih =>
    intro hk
    match k with
    | 0 =>
      cases vs with
      | nil => simp at hk
      | cons w ws => simp [ewmAux]
    | k' + 1 =>
      have hk' : k' + 1 < vs.length := by
        simp only [List.length_cons] at hk; omega
      have := ih (a * v + (1 - a) * prev) k' hk'
      simpa [ewmAux] using this

theorem length_emaRaw (a : ℚ) (x : List ℚ) : (emaRaw a x).length = x.length := by
  cases x with
  | nil => rfl
  | cons x0 xs => simp [emaRaw, length_ewmAux]

theorem emaRaw_getD_zero (a : ℚ) (x : List ℚ) (hx : x ≠ []) :
    (emaRaw a x).getD 0 0 = x.getD 0 0 := by
  cases x with
  | nil => exact absurd rfl hx
  | cons x0 xs => rfl

theorem emaRaw_recursion (a : ℚ) (x : List ℚ) (j : ℕ) (h1 : 1 ≤ j) (hj : j < x.length) :
    (emaRaw a x).getD j 0 =
      a * x.getD j 0 + (1 - a) * (emaRaw a x).getD (j - 1) 0 := by
  cases x with
  | nil => simp at hj
  | cons x0 xs =>
    match j, h1 with
    | 1, _ =>
      cases xs with
      | nil => simp at hj
      | cons w ws => simp [emaRaw, ewmAux]
    | k + 2, _ =>
      have hk : k + 1 < xs.length := by
        simp only [List.length_cons] at hj; omega
      have := ewmAux_getD_succ a xs x0 k hk
      simpa [emaRaw] using this

/-- C1 (amended): for every `p` in the configured EMA set, `ema(x,p)[i]` is
undefined for `i < p-1` and for `i ≥ p-1` equals `y[i]`, where `y` is the
unadjusted recursion `y[0] = x[0]`, `y[j] = α·x[j] + (1-α)·y[j-1]` with
`α = 2/(p+1)`; consequently for every `i > p-1` the visible values satisfy
`ema[i] = α·x[i] + (1-α)·ema[i-1]`.  (The seed `ema[p-1]` is `y[p-1]`, the
recursion run through the masked warm-up region — not the plain mean of the
first `p` values.) -/
theorem ema_warmup_seed_and_recursion (x : List ℚ) (p : ℕ) (hp : p ∈ EMA_PERIODS) (i : ℕ)
    (hn : i < x.length) :
    (i < p - 1 → (calculate_ema x p)[i]? = some none) ∧
    (p - 1 ≤ i → (calculate_ema x p)[i]? =
        some (some ((emaRaw (2 / (p + 1 : ℚ)) x).getD i 0))) ∧
    ((emaRaw (2 / (p + 1 : ℚ)) x).getD 0 0 = x.getD 0 0) ∧
    (∀ j, 1 ≤ j → j < x.length →
        (emaRaw (2 / (p + 1 : ℚ)) x).getD j 0 =
          (2 / (p + 1 : ℚ)) * x.getD j 0
            + (1 - 2 / (p + 1 : ℚ)) * (emaRaw (2 / (p + 1 : ℚ)) x).getD (j - 1) 0) ∧
    (∀ j, p ≤ j → j < x.length → ∃ v w,
        (calculate_ema x p)[j]? = some (some v) ∧
        (calculate_ema x p)[j - 1]? = some (some w) ∧
        v = (2 / (p + 1 : ℚ)) * x.getD j 0 + (1 - 2 / (p + 1 : ℚ)) * w) := by
  have hp1 : 1 ≤ p := by fin_cases hp <;> norm_num
  have hx : x ≠ [] := by
    intro h; rw [h] at hn; simp at hn
  refine ⟨?_, ?_, emaRaw_getD_zero _ x hx, fun j h1 hj => emaRaw_recursion _ x j h1 hj, ?_⟩
  · intro h
    have hc : ¬ p ≤ i + 1 := by omega
    simp only [calculate_ema, List.getElem?_map, List.getElem?_range, hn, Option.map_some']
    rw [if_neg hc]
  · intro h
    have hc : p ≤ i + 1 := by omega
    simp only [calculate_ema, List.getElem?_map, List.getElem?_range, hn, Option.map_some']
    rw [if_pos hc]
  · intro j hpj hj
    have hj1 : j - 1 < x.length := by omega
    have hc : p ≤ j + 1 := by omega
    have hc' : p ≤ (j - 1) + 1 := by omega
    refine ⟨(emaRaw (2 / (p + 1 : ℚ)) x).getD j 0,
      (emaRaw (2 / (p + 1 : ℚ)) x).getD (j - 1) 0, ?_, ?_, ?_⟩
    · simp only [calculate_ema, List.getElem?_map, List.getElem?_range, hj, Option.map_some']
      rw [if_pos hc]
    · simp only [calculate_ema, List.getElem?_map, List.getElem?_range, hj1, Option.map_some']
      rw [if_pos hc']
    · exact emaRaw_recursion _ x j (by omega) hj

/-- Concrete input refuting the claimed EMA seed. -/
def emaCounterexInput : List ℚ := [1, 0, 0, 0, 0, 0, 0, 0, 0, 0]

/-- C1 counterexample: with `p = 10` and the series
`[1,0,0,0,0,0,0,0,0,0]`, the first defined EMA value `ema[9]` is
`(9/11)^9 ≈ 0.164`, not the arithmetic mean `1/10` of the first 10 values
— the code's `ewm(adjust=False)` seeds the recursion at `x[0]`, it does not
seed `ema[p-1]` with the plain mean. -/
theorem ema_seed_is_not_plain_mean :
    (calculate_ema emaCounterexInput 10)[9]? ≠
      some (some ((emaCounterexInput.take 10).sum / 10)) := by
  simp only [calculate_ema, emaCounterexInput, List.length_cons, List.length_nil,
    List.getElem?_map, List.getElem?_range]
  norm_num [emaRaw, ewmAux, List.getD]

/-- Witness for the amended C1 at `x = wSeries`, `p = 10`, `i = 9`. -/
theorem ema_warmup_seed_and_recursion_witness :
    (10 ∈ EMA_PERIODS ∧ 9 < wSeries.length) ∧
    ((9 < 10 - 1 → (calculate_ema wSeries 10)[9]? = some none) ∧
     (10 - 1 ≤ 9 → (calculate_ema wSeries 10)[9]? =
        some (some ((emaRaw (2 / (10 + 1 : ℚ)) wSeries).getD 9 0))) ∧
     ((emaRaw (2 / (10 + 1 : ℚ)) wSeries).getD 0 0 = wSeries.getD 0 0) ∧
     (∀ j, 1 ≤ j → j < wSeries.length →
        (emaRaw (2 / (10 + 1 : ℚ)) wSeries).getD j 0 =
          (2 / (10 + 1 : ℚ)) * wSeries.getD j 0
            + (1 - 2 / (10 + 1 : ℚ)) * (emaRaw (2 / (10 + 1 : ℚ)) wSeries).getD (j - 1) 0) ∧
     (∀ j, 10 ≤ j → j < wSeries.length → ∃ v w,
        (calculate_ema wSeries 10)[j]? = some (some v) ∧
        (calculate_ema wSeries 10)[j - 1]? = some (some w) ∧
        v = (2 / (10 + 1 : ℚ)) * wSeries.getD j 0 + (1 - 2 / (10 + 1 : ℚ)) * w)) :=
  ⟨⟨by decide, by decide⟩, ema_warmup_seed_and_recursion wSeries 10 (by decide) 9 (by decide)⟩

/-! ### Claim C3: F-Score is always defined and bounded by 0..9 -/

theorem rangeMap_getD_lt {α : Type} (g : ℕ → α) (n i : ℕ) (d : α) (h : i < n) :
    ((List.range n).map g).getD i d = g i := by
  rw [List.getD_eq_getElem _ _ (by simp [h])]
  simp

/-- C3: `f_score[i]` is defined at every row and is an integer with
`0 ≤ f_score[i] ≤ 9`: it is the sum of nine boolean components, each
contributing 0 or 1 (a component whose operand is undefined contributes 0,
because a comparison against an undefined value is `false`). -/
theorem f_score_defined_and_bounded (close volume : List ℚ) (i : ℕ) (h : i < close.length) :
    ∃ s, (calculate_f_score close volume)[i]? = some s ∧ s ≤ 9 := by
  simp only [calculate_f_score, List.getElem?_map, List.getElem?_range, h, Option.map_some']
  refine ⟨_, rfl, ?_⟩
  refine le_trans ?_ (by norm_num : (1 + 1 + 1 + 1 + 1 + 1 + 1 + 1 + 1 : ℕ) ≤ 9)
  gcongr <;> exact Bool.toNat_le _

/-- Witness for C3 at `close = volume = wSeries`, `i = 0`. -/
theorem f_score_defined_and_bounded_witness :
    0 < wSeries.length ∧
    ∃ s, (calculate_f_score wSeries wSeries)[0]? = some s ∧ s ≤ 9 :=
  ⟨by decide, f_score_defined_and_bounded wSeries wSeries 0 (by decide)⟩

/-! ### Claim C4: T-Score warm-up, definedness and range -/

theorem map_getD_eq (df : List Bar) (f : Bar → ℚ) (i : ℕ) (hn : i < df.length) :
    (df.map f).getD i 0 = f (df.get ⟨i, hn⟩) := by
  rw [List.getD_eq_getElem _ _ (by simp [hn])]
  simp

/-- C4: for bars with `low ≤ close ≤ high` at every row, `t_score[i]` is
undefined for `i < 13`; for `i ≥ 13` it is defined, its denominator
`high14max - low14min + ε` is strictly positive (no division by zero even
on a flat 14-day range), and whenever `high14max > low14min` the value lies
in `[0, 100]`. -/
theorem t_score_warmup_defined_and_bounded (df : List Bar)
    (hOK : ∀ b ∈ df, b.low ≤ b.close ∧ b.close ≤ b.high) (i : ℕ) (hn : i < df.length) :
    (i < 13 → (calculate_t_score df)[i]? = some none) ∧
    (13 ≤ i → ∃ v hi lo,
      (calculate_t_score df)[i]? = some (some v) ∧
      listMax (windowSlice (df.map (·.high)) 14 i) = some hi ∧
      listMin (windowSlice (df.map (·.low)) 14 i) = some lo ∧
      0 < hi - lo + tEps ∧
      v = ((df.map (·.close)).getD i 0 - lo) / (hi - lo + tEps) * 100 ∧
      (lo < hi → 0 ≤ v ∧ v ≤ 100)) := by
  have hnh : i < (df.map (·.high)).length := by simpa using hn
  have hnl : i < (df.map (·.low)).length := by simpa using hn
  constructor
  · intro h
    have hc : ¬ (14 : ℕ) ≤ i + 1 := by omega
    simp only [calculate_t_score, rollingMax, rollingMin, List.getElem?_map,
      List.getElem?_range, hn, Option.map_some']
    rw [rangeMap_getD_lt _ _ _ _ (by simpa using hn), rangeMap_getD_lt _ _ _ _ (by simpa using hn)]
    rw [if_neg hc]
  · intro h
    have hc : (14 : ℕ) ≤ i + 1 := by omega
    obtain ⟨hi, hhi⟩ := listMax_of_ne_nil _ (windowSlice_ne_nil (df.map (·.high)) 14 i (by norm_num) hnh)
    obtain ⟨lo, hlo⟩ := listMin_of_ne_nil _ (windowSlice_ne_nil (df.map (·.low)) 14 i (by norm_num) hnl)
    have hbar : df.get ⟨i, hn⟩ ∈ df := by rw [List.get_eq_getElem]; exact List.getElem_mem hn
    obtain ⟨hb1, hb2⟩ := hOK _ hbar
    have hhigh : (df.get ⟨i, hn⟩).high ≤ hi := by
      refine le_of_listMax _ _ _ hhi ?_
      have := getD_mem_windowSlice (df.map (·.high)) 14 i (by norm_num) hnh
      rwa [map_getD_eq df _ i hn] at this
    have hlow : lo ≤ (df.get ⟨i, hn⟩).low := by
      refine listMin_le _ _ _ hlo ?_
      have := getD_mem_windowSlice (df.map (·.low)) 14 i (by norm_num) hnl
      rwa [map_getD_eq df _ i hn] at this
    have hcl : (df.map (·.close)).getD i 0 = (df.get ⟨i, hn⟩).close := map_getD_eq df _ i hn
    have hteps : (0 : ℚ) < tEps := by norm_num [tEps]
    have hden : 0 < hi - lo + tEps := by
      have : lo ≤ hi := le_trans hlow (le_trans (le_trans hb1 hb2) hhigh)
      linarith
    refine ⟨((df.map (·.close)).getD i 0 - lo) / (hi - lo + tEps) * 100, hi, lo, ?_, hhi, hlo,
      hden, rfl, ?_⟩
    · simp only [calculate_t_score, rollingMax, rollingMin, List.getElem?_map,
        List.getElem?_range, hn, Option.map_some']
      rw [rangeMap_getD_lt _ _ _ _ (by simpa using hn),
        rangeMap_getD_lt _ _ _ _ (by simpa using hn)]
      rw [if_pos hc, if_pos hc, hhi, hlo]
    · intro _
      rw [hcl]
      constructor
      · have hnum : 0 ≤ (df.get ⟨i, hn⟩).close - lo := by linarith
        have := div_nonneg hnum (le_of_lt hden)
        linarith
      · have hnum : (df.get ⟨i, hn⟩).close - lo ≤ hi - lo + tEps := by linarith
        have hq := (div_le_one hden).mpr hnum
        nlinarith

/-- Concrete 14-bar input for the C4 witness (constant bars, a flat 14-day
range, exercising the ε guard). -/
def flatBars : List Bar :=
  (List.range 14).map fun i =>
    { symbol := "X", date := i, open_ := 5, high := 6, low := 4, close := 5, volume := 100 }

/-- Witness for C4 at `df = flatBars`, `i = 13`. -/
theorem t_score_warmup_defined_and_bounded_witness :
    (∀ b ∈ flatBars, b.low ≤ b.close ∧ b.close ≤ b.high) ∧ 13 < flatBars.length ∧
    ((13 < 13 → (calculate_t_score flatBars)[13]? = some none) ∧
     (13 ≤ 13 → ∃ v hi lo,
       (calculate_t_score flatBars)[13]? = some (some v) ∧
       listMax (windowSlice (flatBars.map (·.high)) 14 13) = some hi ∧
       listMin (windowSlice (flatBars.map (·.low)) 14 13) = some lo ∧
       0 < hi - lo + tEps ∧
       v = ((flatBars.map (·.close)).getD 13 0 - lo) / (hi - lo + tEps) * 100 ∧
       (lo < hi → 0 ≤ v ∧ v ≤ 100))) := by
  refine ⟨?_, ?_, t_score_warmup_defined_and_bounded flatBars ?_ 13 ?_⟩
  · intro b hb
    simp only [flatBars, List.mem_map, List.mem_range] at hb
    obtain ⟨j, _, rfl⟩ := hb
    norm_num
  · norm_num [flatBars]
  · intro b hb
    simp only [flatBars, List.mem_map, List.mem_range] at hb
    obtain ⟨j, _, rfl⟩ := hb
    norm_num
  · norm_num [flatBars]

/-! ### Claim C9: end-to-end 3-row example -/

/-- The spec's end-to-end example: 3 rows for symbol "X" with closes
`[10, 12, 11]`, highs `[10, 12, 11]`, lows `[9, 11, 10]`. -/
def exampleBars : List Bar :=
  [ { symbol := "X", date := 0, open_ := 10, high := 10, low := 9, close := 10, volume := 100 },
    { symbol := "X", date := 1, open_ := 12, high := 12, low := 11, close := 12, volume := 100 },
    { symbol := "X", date := 2, open_ := 11, high := 11, low := 10, close := 11, volume := 100 } ]

/-- C9: on the 3-row example every indicator needing a window of at least 4
(all DMA, all EMA, T-Score) is undefined on every row, while
`is_all_time_high = [true, true, false]` and
`is_all_time_low = [true, false, false]`. -/
theorem end_to_end_example :
    ((add_all_indicators exampleBars).map (·.dma_10) = [none, none, none] ∧
     (add_all_indicators exampleBars).map (·.dma_21) = [none, none, none] ∧
     (add_all_indicators exampleBars).map (·.dma_50) = [none, none, none] ∧
     (add_all_indicators exampleBars).map (·.dma_100) = [none, none, none] ∧
     (add_all_indicators exampleBars).map (·.ema_10) = [none, none, none] ∧
     (add_all_indicators exampleBars).map (·.ema_21) = [none, none, none] ∧
     (add_all_indicators exampleBars).map (·.ema_50) = [none, none, none] ∧
     (add_all_indicators exampleBars).map (·.ema_100) = [none, none, none] ∧
     (add_all_indicators exampleBars).map (·.t_score) = [none, none, none]) ∧
    (add_all_indicators exampleBars).map (·.is_all_time_high) = [true, true, false] ∧
    (add_all_indicators exampleBars).map (·.is_all_time_low) = [true, false, false] := by
  decide

/-! ### Claim C5: upsert is a full replace of every value column -/

/-- C5: when a row's `(symbol, date)` key already exists in the store, the
upsert overwrites every column except the key with the new row's value — a
full replace, not a merge (shrinking values, e.g. a flag going from `true`
to `false`, are persisted like any other). -/
theorem upsert_overwrites_all_value_columns (s : Store) (r : IndicatorRow) (old : StoredVals)
    (_hold : s (rowKey r) = some old) :
    ∃ v, upsertRow s r (rowKey r) = some v ∧
      v.open_ = r.bar.open_ ∧ v.high = r.bar.high ∧ v.low = r.bar.low ∧
      v.close = r.bar.close ∧ v.volume = r.bar.volume ∧
      v.t_score = r.t_score ∧ v.f_score = r.f_score ∧
      v.dma_10 = r.dma_10 ∧ v.dma_21 = r.dma_21 ∧ v.dma_50 = r.dma_50 ∧
      v.dma_100 = r.dma_100 ∧
      v.ema_10 = r.ema_10 ∧ v.ema_21 = r.ema_21 ∧ v.ema_50 = r.ema_50 ∧
      v.ema_100 = r.ema_100 ∧
      v.is_52_week_high = r.is_52_week_high ∧ v.is_52_week_low = r.is_52_week_low ∧
      v.is_all_time_high = r.is_all_time_high ∧ v.is_all_time_low = r.is_all_time_low := by
  exact ⟨rowVals r, by simp [upsertRow], rfl, rfl, rfl, rfl, rfl, rfl, rfl, rfl, rfl, rfl,
    rfl, rfl, rfl, rfl, rfl, rfl, rfl, rfl, rfl⟩

/-- Concrete row for the writer witnesses: its `is_all_time_high` flag is
`false`, shrinking the previously stored `true`. -/
def wRow : IndicatorRow :=
  { bar := { symbol := "X", date := 5, open_ := 1, high := 2, low := 0, close := 1, volume := 10 }
    t_score := none, f_score := 3
    dma_10 := none, dma_21 := none, dma_50 := none, dma_100 := none
    ema_10 := none, ema_21 := none, ema_50 := none, ema_100 := none
    is_52_week_high := false, is_52_week_low := false
    is_all_time_high := false, is_all_time_low := false }

/-- A previously stored record under the same key, with
`is_all_time_high = true`. -/
def wOld : StoredVals :=
  { open_ := 7, high := 9, low := 6, close := 8, volume := 20
    t_score := some 50, f_score := 9
    dma_10 := some 8, dma_21 := none, dma_50 := none, dma_100 := none
    ema_10 := some 8, ema_21 := none, ema_50 := none, ema_100 := none
    is_52_week_high := true, is_52_week_low := false
    is_all_time_high := true, is_all_time_low := false }

/-- A store already holding a record under `wRow`'s key. -/
def wStore : Store := fun k => if k = ("X", 5) then some wOld else none

/-- Witness for C5: upserting `wRow` over `wStore` replaces every value
column, including shrinking `is_all_time_high` from `true` to `false`. -/
theorem upsert_overwrites_all_value_columns_witness :
    wStore (rowKey wRow) = some wOld ∧
    ∃ v, upsertRow wStore wRow (rowKey wRow) = some v ∧
      v.open_ = wRow.bar.open_ ∧ v.high = wRow.bar.high ∧ v.low = wRow.bar.low ∧
      v.close = wRow.bar.close ∧ v.volume = wRow.bar.volume ∧
      v.t_score = wRow.t_score ∧ v.f_score = wRow.f_score ∧
      v.dma_10 = wRow.dma_10 ∧ v.dma_21 = wRow.dma_21 ∧ v.dma_50 = wRow.dma_50 ∧
      v.dma_100 = wRow.dma_100 ∧
      v.ema_10 = wRow.ema_10 ∧ v.ema_21 = wRow.ema_21 ∧ v.ema_50 = wRow.ema_50 ∧
      v.ema_100 = wRow.ema_100 ∧
      v.is_52_week_high = wRow.is_52_week_high ∧ v.is_52_week_low = wRow.is_52_week_low ∧
      v.is_all_time_high = wRow.is_all_time_high ∧ v.is_all_time_low = wRow.is_all_time_low :=
  ⟨by decide, upsert_overwrites_all_value_columns wStore wRow wOld (by decide)⟩

/-! ### Claim C6: the write is idempotent -/

theorem upsertAll_eq_or (rows : List IndicatorRow) :
    ∀ (s : Store) (k), upsertAll s rows k =
      (upsertAll (fun _ => none) rows k).or (s k) := by
  induction rows with
  | nil => intro s k; rfl
  | cons r rs ih =>
    intro s k
    show upsertAll (upsertRow s r) rs k = (upsertAll (upsertRow (fun _ => none) r) rs k).or (s k)
    rw [ih (upsertRow s r) k, ih (upsertRow (fun _ => none) r) k]
    cases hX : upsertAll (fun _ => none) rs k with
    | some v => rfl
    | none =>
      show upsertRow s r k = (upsertRow (fun _ => none) r k).or (s k)
      unfold upsertRow
      by_cases hk : k = rowKey r
      · rw [if_pos hk, if_pos hk]; rfl
      · rw [if_neg hk, if_neg hk]; rfl

theorem upsertAll_idem (s : Store) (rows : List IndicatorRow) :
    upsertAll (upsertAll s rows) rows = upsertAll s rows := by
  funext k
  rw [upsertAll_eq_or rows (upsertAll s rows) k, upsertAll_eq_or rows s k]
  cases upsertAll (fun _ => none) rows k <;> rfl

theorem chunksOf_flatten_aux (n : ℕ) (hn : 1 ≤ n) :
    ∀ (L : ℕ) (l : List IndicatorRow), l.length = L → (chunksOf n l).flatten = l := by
  intro L
  induction L using Nat.strong_induction_on with
  | _ L ih =>
    intro l hL
    cases l with
    | nil => rw [chunksOf]; rfl
    | cons x xs =>
      rw [chunksOf]
      simp only [List.flatten_cons]
      have hlt : (xs.drop (n - 1)).length < L := by
        subst hL; simp only [List.length_drop, List.length_cons]; omega
      rw [ih _ hlt _ rfl]
      cases n with
      | zero => omega
      | succ m =>
        simp only [List.take_succ_cons, Nat.add_sub_cancel, List.cons_append,
          List.take_append_drop]

theorem chunksOf_flatten (n : ℕ) (hn : 1 ≤ n) (l : List IndicatorRow) :
    (chunksOf n l).flatten = l :=
  chunksOf_flatten_aux n hn l.length l rfl

theorem execBatches_noFail (bs : List (List IndicatorRow)) :
    ∀ (i : ℕ) (sess : Store),
      execBatches (fun _ => false) i sess bs = .ok (upsertAll sess bs.flatten) := by
  induction bs with
  | nil => intro i sess; rfl
  | cons b rest ih =>
    intro i sess
    show execBatches (fun _ => false) (i + 1) (upsertAll sess b) rest = _
    rw [ih (i + 1) (upsertAll sess b)]
    simp only [List.flatten_cons, upsertAll, List.foldl_append]

theorem store_data_noFail (db : Store) (rows : List IndicatorRow) :
    store_data (fun _ => false) db rows = .ok (upsertAll db rows) := by
  unfold store_data
  rw [execBatches_noFail, chunksOf_flatten 1000 (by norm_num)]

/-- C6: submitting the same `IndicatorRow` set to the writer twice leaves
the store in the same observable state as submitting it once — the first
run commits `upsertAll db rows`, and a second identical run commits exactly
that state again. -/
theorem upsert_write_idempotent (db : Store) (rows : List IndicatorRow) :
    store_data (fun _ => false) db rows = .ok (upsertAll db rows) ∧
    store_data (fun _ => false) (upsertAll db rows) rows = .ok (upsertAll db rows) := by
  refine ⟨store_data_noFail db rows, ?_⟩
  rw [store_data_noFail (upsertAll db rows) rows, upsertAll_idem]

/-! ### Claim C7: storage failure rolls back and is fatal to the run -/

theorem execBatches_fails (failAt : ℕ → Bool) (bs : List (List IndicatorRow)) :
    ∀ (k : ℕ) (sess : Store), (∃ j, k ≤ j ∧ j < k + bs.length ∧ failAt j = true) →
      execBatches failAt k sess bs = .error () := by
  induction bs with
  | nil =>
    intro k sess ⟨j, h1, h2, _⟩
    simp only [List.length_nil, Nat.add_zero] at h2
    omega
  | cons b rest ih =>
    intro k sess ⟨j, h1, h2, hf⟩
    by_cases hk : failAt k
    · simp [execBatches, hk]
    · have hjk : j ≠ k := by
        intro e; subst e; rw [hf] at hk; exact hk rfl
      simp only [execBatches, hk, Bool.false_eq_true, if_false]
      refine ih (k + 1) _ ⟨j, by omega, ?_, hf⟩
      simp only [List.length_cons] at h2
      omega

/-- C7: if the store raises while executing any batch of a run, the whole
run's writes are rolled back (the durable store is unchanged — no partial
writes are visible), and the failure is surfaced: `_store_data` re-raises
it, and the top level of the processing call observes it and reports the
run as failed. -/
theorem storage_failure_rolls_back_and_is_fatal (failAt : ℕ → Bool) (db : Store)
    (rows : List IndicatorRow) (i : ℕ) (hi : i < (chunksOf 1000 rows).length)
    (hf : failAt i = true) :
    store_data failAt db rows = .error () ∧
    storeAfter failAt db rows = db ∧
    process_and_store failAt db rows = (false, db) := by
  have h1 : store_data failAt db rows = .error () := by
    unfold store_data
    exact execBatches_fails failAt _ 0 db ⟨i, by omega, by omega, hf⟩
  refine ⟨h1, ?_, ?_⟩
  · unfold storeAfter; rw [h1]
  · unfold process_and_store; rw [h1]

/-- Witness for C7: a single-row run whose first (and only) batch fails
leaves the empty store unchanged and reports failure. -/
theorem storage_failure_rolls_back_and_is_fatal_witness :
    (0 < (chunksOf 1000 [wRow]).length ∧ (fun _ : ℕ => true) 0 = true) ∧
    (store_data (fun _ => true) (fun _ => none) [wRow] = .error () ∧
     storeAfter (fun _ => true) (fun _ => none) [wRow] = (fun _ => none) ∧
     process_and_store (fun _ => true) (fun _ => none) [wRow] = (false, fun _ => none)) :=
  ⟨⟨by rw [chunksOf]; simp [chunksOf], rfl⟩,
    storage_failure_rolls_back_and_is_fatal (fun _ => true) (fun _ => none) [wRow] 0
      (by rw [chunksOf]; simp [chunksOf]) rfl⟩

/-! ### Sorting, grouping and engine-output lemmas (for C8 and C10) -/

theorem mem_insertByDate (b x : Bar) : ∀ (t : List Bar), x ∈ insertByDate b t ↔ x = b ∨ x ∈ t := by
  intro t
  induction t with
  | nil => simp [insertByDate]
  | cons a t' ih =>
    unfold insertByDate
    by_cases h : b.date ≤ a.date
    · rw [if_pos h]; simp
    · rw [if_neg h]
      simp only [List.mem_cons, ih]
      tauto

theorem mem_sortByDate (x : Bar) : ∀ (l : List Bar), x ∈ sortByDate l ↔ x ∈ l := by
  intro l
  induction l with
  | nil => simp [sortByDate]
  | cons a t ih =>
    unfold sortByDate
    rw [mem_insertByDate, ih]
    simp

theorem sortByDate_eq_self : ∀ (l : List Bar), isSortedByDate l = true → sortByDate l = l := by
  intro l
  induction l with
  | nil => intro _; rfl
  | cons a t ih =>
    intro h
    cases t with
    | nil => rfl
    | cons b t' =>
      simp only [isSortedByDate, Bool.and_eq_true, decide_eq_true_eq] at h
      obtain ⟨h1, h2⟩ := h
      unfold sortByDate
      rw [ih h2]
      unfold insertByDate
      rw [if_pos h1]

theorem bars_of_add_all (l : List Bar) :
    (add_all_indicators l).map (·.bar) = sortByDate l := by
  apply List.ext_getElem
  · simp [add_all_indicators]
  · intro i h1 h2
    simp only [add_all_indicators, List.getElem_map, List.getElem_range]
    exact List.getD_eq_getElem _ default h2

theorem mem_firstSeen (a : String) : ∀ (l : List String), a ∈ firstSeen l ↔ a ∈ l := by
  intro l
  induction l with
  | nil => simp [firstSeen]
  | cons s t ih =>
    simp only [firstSeen, List.mem_cons, List.mem_filter, ih, ne_eq, decide_not,
      Bool.not_eq_eq_eq_not, Bool.not_false, decide_eq_true_eq]
    by_cases h : a = s
    · simp [h]
    · simp [h]

theorem nodup_firstSeen : ∀ (l : List String), (firstSeen l).Nodup := by
  intro l
  induction l with
  | nil => simp [firstSeen]
  | cons s t ih =>
    simp only [firstSeen, List.nodup_cons]
    constructor
    · intro hmem
      have := (List.mem_filter.mp hmem).2
      simp at this
    · exact List.Nodup.filter _ ih

theorem filter_flatten_blocks (p : IndicatorRow → Bool) :
    ∀ (L : List (List IndicatorRow)),
      L.flatten.filter p = (L.map (List.filter p)).flatten := by
  intro L
  induction L with
  | nil => rfl
  | cons b rest ih => simp [List.filter_append, ih]

theorem add_all_symbol_pure (l : List Bar) (sym : String) (h : ∀ b ∈ l, b.symbol = sym) :
    ∀ r ∈ add_all_indicators l, r.bar.symbol = sym := by
  intro r hr
  have hb : r.bar ∈ (add_all_indicators l).map (·.bar) := List.mem_map_of_mem _ hr
  rw [bars_of_add_all] at hb
  exact h _ ((mem_sortByDate _ l).mp hb)

theorem flatten_filter_one_block (B : String) (g : String → List IndicatorRow)
    (hg : ∀ s, ∀ r ∈ g s, r.bar.symbol = s) :
    ∀ (S : List String), S.Nodup →
      ((S.map g).flatten.filter (fun r => r.bar.symbol = B)) =
        if B ∈ S then g B else [] := by
  intro S
  induction S with
  | nil => intro _; simp
  | cons s rest ih =>
    intro hN
    obtain ⟨hs, hrest⟩ := List.nodup_cons.mp hN
    simp only [List.map_cons, List.flatten_cons, List.filter_append]
    rw [ih hrest]
    by_cases hB : s = B
    · subst hB
      rw [if_neg hs, if_pos (List.mem_cons_self s rest)]
      rw [List.filter_eq_self.mpr (fun r hr => by simp [hg s r hr])]
      simp
    · rw [List.filter_eq_nil_iff.mpr (fun r hr => by simp [hg s r hr, hB])]
      simp only [List.nil_append]
      by_cases hBr : B ∈ rest
      · rw [if_pos hBr, if_pos (List.mem_cons_of_mem s hBr)]
      · rw [if_neg hBr, if_neg (by simp [hB, hBr, List.mem_cons]; tauto)]

theorem add_all_indicators_nil : add_all_indicators [] = [] := rfl

theorem filter_process_multiple (df : List Bar) (B : String) :
    (process_multiple_symbols df).filter (fun r => r.bar.symbol = B) =
      add_all_indicators (sortByDate (df.filter (fun b => b.symbol = B))) := by
  unfold process_multiple_symbols
  rw [flatten_filter_one_block B _
      (fun s r hr => add_all_symbol_pure _ s
        (fun b hb => by
          have := (mem_sortByDate b _).mp hb
          simpa using (List.mem_filter.mp this).2) r hr)
      _ (nodup_firstSeen _)]
  by_cases hB : B ∈ firstSeen (df.map (·.symbol))
  · rw [if_pos hB]
  · rw [if_neg hB]
    have hBm : B ∉ df.map (·.symbol) := fun h => hB ((mem_firstSeen B _).mpr h)
    have hfil : df.filter (fun b => b.symbol = B) = [] := by
      rw [List.filter_eq_nil_iff]
      intro b hb
      simp only [decide_eq_true_eq]
      intro he
      exact hBm (by rw [← he]; exact List.mem_map_of_mem _ hb)
    rw [hfil]
    rfl

/-! ### Claim C8: per-symbol isolation -/

/-- C8: two batch runs whose inputs agree on the rows carried by symbol `B`
(however symbol `A`'s rows are corrupted or omitted) produce identical
indicator rows for `B` — no cross-symbol state exists. -/
theorem per_symbol_isolation (df1 df2 : List Bar) (B : String)
    (h : df1.filter (fun b => b.symbol = B) = df2.filter (fun b => b.symbol = B)) :
    (process_multiple_symbols df1).filter (fun r => r.bar.symbol = B) =
      (process_multiple_symbols df2).filter (fun r => r.bar.symbol = B) := by
  rw [filter_process_multiple, filter_process_multiple, h]

/-- A second symbol used to corrupt one run of the C8 witness. -/
def corruptBar : Bar :=
  { symbol := "A", date := 1, open_ := 1000, high := 1000, low := 1000, close := 1000,
    volume := 0 }

/-- Witness for C8: omitting (or corrupting) symbol "A"'s rows does not
change the computed rows for symbol "X". -/
theorem per_symbol_isolation_witness :
    (exampleBars ++ [corruptBar]).filter (fun b => b.symbol = "X") =
        exampleBars.filter (fun b => b.symbol = "X") ∧
    (process_multiple_symbols (exampleBars ++ [corruptBar])).filter
        (fun r => r.bar.symbol = "X") =
      (process_multiple_symbols exampleBars).filter (fun r => r.bar.symbol = "X") :=
  ⟨by decide, per_symbol_isolation (exampleBars ++ [corruptBar]) exampleBars "X" (by decide)⟩

/-! ### Claim C10: the engine only adds columns -/

/-- C10: on an input collection whose per-symbol rows are already sorted
ascending by date, the computation only adds columns: mapping each output
row back to its bar (symbol, date, open, high, low, close, volume) yields
exactly the input rows, grouped by first-seen symbol in their original
per-symbol order.  (The computation is a pure function of its input; the
source operates on `df.copy()`, leaving the caller's frame unmodified.) -/
theorem engine_only_adds_columns (df : List Bar)
    (hs : ∀ sym ∈ firstSeen (df.map (·.symbol)),
      isSortedByDate (df.filter (fun b => b.symbol = sym)) = true) :
    (process_multiple_symbols df).map (·.bar) =
      ((firstSeen (df.map (·.symbol))).map
        (fun sym => df.filter (fun b => b.symbol = sym))).flatten := by
  unfold process_multiple_symbols
  rw [List.map_flatten, List.map_map]
  congr 1
  apply List.map_congr_left
  intro sym hsym
  simp only [Function.comp]
  rw [sortByDate_eq_self _ (hs sym hsym), bars_of_add_all,
    sortByDate_eq_self _ (hs sym hsym)]

/-- Witness for C10 on a two-symbol collection with interleaved,
per-symbol-sorted rows. -/
theorem engine_only_adds_columns_witness :
    (∀ sym ∈ firstSeen ((exampleBars ++ [corruptBar]).map (·.symbol)),
      isSortedByDate ((exampleBars ++ [corruptBar]).filter (fun b => b.symbol = sym)) = true) ∧
    (process_multiple_symbols (exampleBars ++ [corruptBar])).map (·.bar) =
      ((firstSeen ((exampleBars ++ [corruptBar]).map (·.symbol))).map
        (fun sym => (exampleBars ++ [corruptBar]).filter (fun b => b.symbol = sym))).flatten :=
  ⟨by decide, engine_only_adds_columns (exampleBars ++ [corruptBar]) (by decide)⟩

end StockPipeline
